import Mathlib

/-!
Verification of the `manage.py` command-framework repository.

The development shallowly embeds the Python code in Lean 4:

* Section "Python string primitives": code-point–lexicographic string
  comparison (Python `<` on `str`), `str.split(sep)`, `str.splitlines()`,
  `str.strip()` and `sorted()` as executable Lean functions, together
  with a model of Python `dict` assignment (`dictInsert`) and lookup
  (`dictGet`) on association lists.
* Section "manager core (modelled from the spec)": the core `manager`
  package (output normalizer `puts`, signature inspector, boolean-flag
  polarity, `parse_env`, the interactive prompt engine, `env` bindings and
  registry `merge`) is not part of the repository checkout; each of those
  definitions is modelled from the specification document, as marked in
  its doc comment.
* Section "manager.ext.aws.configs": direct embedding of
  `src/manager/ext/aws/configs.py` (`get_namespace_key`, `get_value`,
  the dictionary built by `set`, and the `list` command's selection and
  key-prefix logic), with the SimpleDB connection abstracted as explicit
  data (`Domain`, `Item`).
-/

/-! ### Python string primitives -/

/-- Code-point comparison of characters, as Python compares `str`
characters. -/
def charLtB (a b : Char) : Bool := a.toNat < b.toNat

/-- Lexicographic code-point comparison of character lists; embeds
Python `<` on `str`. -/
def charListLtB : List Char → List Char → Bool
  | [], [] => false
  | [], _ :: _ => true
  | _ :: _, [] => false
  | a :: as, b :: bs =>
    if charLtB a b then true
    else if charLtB b a then false
    else charListLtB as bs

/-- Python `a < b` on strings. -/
def pyStrLt (a b : String) : Bool := charListLtB a.data b.data

/-- Python `a <= b` on strings (total order used by `sorted`). -/
def pyStrLe (a b : String) : Bool := !(pyStrLt b a)

/-- Python `a <= b` on strings, as a decidable proposition. -/
def pyStrLeP (a b : String) : Prop := pyStrLe a b = true

instance : DecidableRel pyStrLeP :=
  fun a b => inferInstanceAs (Decidable (pyStrLe a b = true))

/-- Python `sorted(keys)` for string keys: stable ascending sort by the
code-point order. -/
def pySorted (keys : List String) : List String := List.insertionSort pyStrLeP keys

/-- Helper for `pySplitChar`: accumulates the current field in reverse. -/
def pySplitCharAux (sep : Char) : List Char → List Char → List (List Char)
  | [], acc => [acc.reverse]
  | c :: rest, acc =>
    if c.toNat = sep.toNat then acc.reverse :: pySplitCharAux sep rest []
    else pySplitCharAux sep rest (c :: acc)

/-- Python `s.split(sep)` for a single-character separator:
`"".split(".") = [""]`, `"a.b".split(".") = ["a", "b"]`. -/
def pySplitChar (sep : Char) (s : String) : List String :=
  (pySplitCharAux sep s.data []).map String.mk

/-- Number of occurrences of `sep` in `s`, under the same character test
used by `pySplitChar`. -/
def sepCount (sep : Char) (s : String) : Nat :=
  s.data.countP (fun c => c.toNat = sep.toNat)

/-- Helper for `pySplitlines`: accumulates the current line in reverse;
recognizes the line boundaries `\r\n`, `\n` and `\r`. -/
def pySplitlinesAux : List Char → List Char → List (List Char)
  | [], acc => if acc.isEmpty then [] else [acc.reverse]
  | [c], acc =>
    if c.toNat = 13 || c.toNat = 10 then [acc.reverse]
    else [(c :: acc).reverse]
  | c :: c2 :: rest, acc =>
    if c.toNat = 13 then
      if c2.toNat = 10 then acc.reverse :: pySplitlinesAux rest []
      else acc.reverse :: pySplitlinesAux (c2 :: rest) []
    else if c.toNat = 10 then acc.reverse :: pySplitlinesAux (c2 :: rest) []
    else pySplitlinesAux (c2 :: rest) (c :: acc)

/-- Python `s.splitlines()`: `"".splitlines() = []`,
`"a\n".splitlines() = ["a"]`, `"a\n\nb".splitlines() = ["a", "", "b"]`. -/
def pySplitlines (s : String) : List String :=
  (pySplitlinesAux s.data []).map String.mk

/-- Whitespace recognized when trimming `KEY=VALUE` fields (space, tab,
carriage return; line feeds are already consumed by line splitting). -/
def isSpaceB (c : Char) : Bool := c.toNat = 32 || c.toNat = 9 || c.toNat = 13

/-- Python `s.strip()` restricted to the whitespace of `isSpaceB`. -/
def pyStrip (s : String) : String :=
  String.mk (((s.data.dropWhile (fun c => isSpaceB c)).reverse.dropWhile
    (fun c => isSpaceB c)).reverse)

/-- Python dict lookup on an association list: first binding wins (the
lists built by `dictInsert` hold each key at most once). -/
def dictGet (k : String) : List (String × String) → Option String
  | [] => Option.none
  | (k', v) :: rest => if k = k' then some v else dictGet k rest

/-- Python dict assignment `d[k] = v` on an association list: any
previous binding of `k` is replaced. -/
def dictInsert (k : String) (v : String) (d : List (String × String)) :
    List (String × String) :=
  d.filter (fun p => !(p.1 = k : Bool)) ++ [(k, v)]

/-! ### manager core (modelled from the spec) -/

/-- Modelled from the spec: the runtime values a command may return,
covering the cases the Output Normalizer distinguishes (§4.5); the
`manager` package itself is missing from the checkout. `other` carries
the plain textual representation of any other non-`None` value. -/
inductive Ret : Type
  | noneV : Ret
  | bool : Bool → Ret
  | str : String → Ret
  | strList : List String → Ret
  | dict : List (String × Option String) → Ret
  | other : String → Ret

/-- Strips trailing line-break characters (`\n`, `\r`) from a string. -/
def rstripNl (s : String) : String :=
  String.mk (s.data.reverse.dropWhile (fun c => c.toNat = 10 || c.toNat = 13)).reverse

/-- Modelled from the spec: the Output Normalizer `puts` (§4.5) of the
missing `manager` package. Returns the text written to standard output
together with the success flag handed to the Dispatcher (`false` =
invocation failure, i.e. non-zero exit). -/
def puts : Ret → String × Bool
  | Ret.noneV => ("", true)
  | Ret.bool true => ("OK\n", true)
  | Ret.bool false => ("FAILED\n", false)
  | Ret.str s => (s ++ "\n", true)
  | Ret.strList ls => ((ls.map (fun l => rstripNl l ++ "\n")).foldr (· ++ ·) "", true)
  | Ret.dict es => ((es.map (fun p => p.1 ++ " " ++ p.2.getD "" ++ "\n")).foldr (· ++ ·) "", true)
  | Ret.other r => (r ++ "\n", true)

/-- Modelled from the spec: Python runtime values usable as parameter
defaults (the signature inspector only inspects the default's runtime
type). -/
inductive PyVal : Type
  | noneV : PyVal
  | bool : Bool → PyVal
  | int : Int → PyVal
  | str : String → PyVal

/-- Modelled from the spec: the runtime types the signature inspector
may infer from a non-`None` default. -/
inductive PyType : Type
  | bool | int | str

/-- Modelled from the spec: one parameter of a callable's signature;
`default = none` means the parameter has no default. -/
structure Param : Type where
  name : String
  default : Option PyVal

/-- Modelled from the spec: an Argument Descriptor (§3) as derived by
the signature inspector; `declaredType = none` means the type is left
free-form. -/
structure ArgDescr : Type where
  name : String
  required : Bool
  default : Option PyVal
  declaredType : Option PyType

/-- Modelled from the spec: the Signature Inspector (§4.1). A parameter
with no default is required with no default; a non-`None` default fixes
`declaredType` to its runtime type; a `None` default leaves the type
free. -/
def inspectParams (ps : List Param) : List ArgDescr :=
  ps.map (fun p =>
    match p.default with
    | Option.none => ⟨p.name, true, Option.none, Option.none⟩
    | some PyVal.noneV => ⟨p.name, false, some PyVal.noneV, Option.none⟩
    | some (PyVal.bool b) => ⟨p.name, false, some (PyVal.bool b), some PyType.bool⟩
    | some (PyVal.int n) => ⟨p.name, false, some (PyVal.int n), some PyType.int⟩
    | some (PyVal.str s) => ⟨p.name, false, some (PyVal.str s), some PyType.str⟩)

/-- Modelled from the spec: resolution of a boolean flag during parsing
(§3 `is_boolean_flag` polarity). With default `False` the positive flag
`--name` turns the option on; with default `True` the flag is rendered
with the negating `--no-` and turns it off; with no flag present the
default stands. -/
def resolveBoolFlag (name : String) (defaultVal : Bool) (argv : List String) : Bool :=
  if defaultVal then
    if argv.contains ("--no-" ++ name) then false else true
  else
    if argv.contains ("--" ++ name) then true else false

/-- Splits a character list at the first `=`, returning the parts before
and after it, or nothing when no `=` occurs. -/
def splitEq : List Char → Option (List Char × List Char)
  | [] => Option.none
  | c :: rest =>
    if c.toNat = 61 then some ([], rest)
    else (splitEq rest).map (fun p => (c :: p.1, p.2))

/-- Strips one pair of surrounding matching single or double quotes. -/
def stripQuotes (s : String) : String :=
  if 2 ≤ s.data.length ∧
      ((s.data.head? = some '\'' ∧ s.data.getLast? = some '\'') ∨
        (s.data.head? = some '"' ∧ s.data.getLast? = some '"')) then
    String.mk ((s.data.drop 1).dropLast)
  else s

/-- Modelled from the spec: parsing of one `KEY=VALUE` line of an
environment blob (§4.4, §6): split at the first `=`, trim whitespace,
strip matching quotes from the value; a line without `=` (in particular
a blank line) contributes nothing. -/
def parseEnvLine (line : String) : Option (String × String) :=
  match splitEq line.data with
  | Option.none => Option.none
  | some (k, v) => some (pyStrip (String.mk k), stripQuotes (pyStrip (String.mk v)))

/-- Modelled from the spec: folds one blob line into the accumulated
environment mapping. -/
def envStep (acc : List (String × String)) (line : String) : List (String × String) :=
  match parseEnvLine line with
  | Option.none => acc
  | some p => dictInsert p.1 p.2 acc

/-- Modelled from the spec: `Manager.parse_env` (§4.4) of the missing
`manager` package. Lines accumulate into one mapping; a later duplicate
key overrides an earlier one. -/
def parse_env (text : String) : List (String × String) :=
  (pySplitChar '\n' text).foldl envStep []

/-- Modelled from the spec: prompt failure conditions (§4.6, §7). -/
inductive PErr : Type
  | valueRequired | badCoercion | badChoice | mismatch
  deriving DecidableEq

/-- Modelled from the spec: a value resolved by the prompt engine
(`noneV` is the absence marker returned for an allowed empty input). -/
inductive PVal : Type
  | noneV : PVal
  | str : String → PVal
  | bool : Bool → PVal
  deriving DecidableEq

/-- Modelled from the spec: the prompt configuration of a prompted
Argument Descriptor (§4.6); `hidden` does not change resolution. -/
structure PromptCfg : Type where
  typeBool : Bool
  choices : Option (List String)
  defaultVal : Option PVal
  allowEmpty : Bool
  confirm : Bool

/-- ASCII lower-casing of one character. -/
def lowerChar (c : Char) : Char :=
  if 65 ≤ c.toNat ∧ c.toNat ≤ 90 then Char.ofNat (c.toNat + 32) else c

/-- ASCII lower-casing of a string. -/
def lowerStr (s : String) : String := String.mk (s.data.map lowerChar)

/-- Modelled from the spec: the fixed case-insensitive vocabulary
coercing prompt input to `true` (§4.6 step 3). -/
def trueChoices : List String := ["y", "yes", "true", "1"]

/-- Modelled from the spec: the fixed case-insensitive vocabulary
coercing prompt input to `false` (§4.6 step 3). -/
def falseChoices : List String := ["n", "no", "false", "0"]

/-- Modelled from the spec: resolution of one entered line by the prompt
engine (§4.6 steps 2–4): empty input falls back to the default, then to
the absence marker when empty input is allowed, else fails; boolean
coercion uses the fixed vocabulary; a `choices` restriction must match
exactly. -/
def processValue (cfg : PromptCfg) (line : String) : Except PErr PVal :=
  if line = "" then
    match cfg.defaultVal with
    | some d => Except.ok d
    | Option.none =>
      if cfg.allowEmpty then Except.ok PVal.noneV else Except.error PErr.valueRequired
  else
    let coerced : Except PErr PVal :=
      if cfg.typeBool then
        if trueChoices.contains (lowerStr line) then Except.ok (PVal.bool true)
        else if falseChoices.contains (lowerStr line) then Except.ok (PVal.bool false)
        else Except.error PErr.badCoercion
      else Except.ok (PVal.str line)
    match coerced with
    | Except.error e => Except.error e
    | Except.ok v =>
      match cfg.choices with
      | some cs => if cs.contains line then Except.ok v else Except.error PErr.badChoice
      | Option.none => Except.ok v

/-- Modelled from the spec: one prompt invocation (§4.6). `reader` maps
a rendered prompt text to the line read from standard input. With
`confirm` set, a second value is read under the "(again)" prompt variant
and the two resolved values must compare equal; a mismatch fails. -/
def prompt (cfg : PromptCfg) (text : String) (reader : String → String) :
    Except PErr PVal :=
  match processValue cfg (reader text) with
  | Except.error e => Except.error e
  | Except.ok v₁ =>
    if cfg.confirm then
      match processValue cfg (reader (text ++ " (again)")) with
      | Except.error e => Except.error e
      | Except.ok v₂ =>
        if v₁ = v₂ then Except.ok v₁ else Except.error PErr.mismatch
    else Except.ok v₁

/-- Modelled from the spec: one entry of the registry's env-var side
table (§3): environment variable name, optional static default, and the
target parameter; `value = none` makes the variable required. -/
structure EnvBinding : Type where
  var : String
  value : Option String
  param : String

/-- Modelled from the spec: resolution of the env bindings of a command
against the process environment (§6, §7): a present variable supplies
its value; an absent optional one its configured default; an absent
required one raises a missing-key lookup failure carrying the variable
name. -/
def resolveEnvBindings (bs : List EnvBinding) (environ : List (String × String)) :
    Except String (List (String × String)) :=
  match bs with
  | [] => Except.ok []
  | b :: rest =>
    match dictGet b.var environ with
    | some v => (resolveEnvBindings rest environ).map (fun r => (b.param, v) :: r)
    | Option.none =>
      match b.value with
      | some d => (resolveEnvBindings rest environ).map (fun r => (b.param, d) :: r)
      | Option.none => Except.error b.var

/-- Modelled from the spec: invocation of an env-bound callable (§6):
the bindings are resolved first and a missing-key failure propagates
before the callable runs. -/
def invokeWithEnv (bs : List EnvBinding) (environ : List (String × String))
    (call : List (String × String) → Ret) : Except String Ret :=
  (resolveEnvBindings bs environ).map call

/-- Modelled from the spec: a registered Command, reduced to the payload
`merge` copies around (the schema itself is irrelevant to merging). -/
structure Cmd : Type where
  name : String

/-- Modelled from the spec: a Registry is a mapping from fully-qualified
command path to Command (§3). -/
abbrev Registry : Type := List (String × Cmd)

/-- Modelled from the spec: the path a copied command lands at when
merging under an optional namespace: `"{namespace}.{original_path}"`
when a namespace is given (§4.4). -/
def mergedPath (ns : Option String) (p : String) : String :=
  match ns with
  | Option.none => p
  | some n => n ++ "." ++ p

/-- Lookup of a command by path in a registry. -/
def regGet (k : String) : Registry → Option Cmd
  | [] => Option.none
  | (k', v) :: rest => if k = k' then some v else regGet k rest

/-- Modelled from the spec: `add_command` at a given path; two commands
at the same path are a collision and raise (§3 invariant). -/
def addCommand (reg : Registry) (p : String) (c : Cmd) : Except String Registry :=
  if (regGet p reg).isSome then Except.error p else Except.ok (reg ++ [(p, c)])

/-- Modelled from the spec: `Manager.merge` (§4.4): copies every command
of the other registry into this one, prefixing each copied path with the
given namespace and a dot when a namespace is given; collisions raise. -/
def mergeRegistries (self : Registry) (other : Registry) (ns : Option String) :
    Except String Registry :=
  match other with
  | [] => Except.ok self
  | (p, c) :: rest =>
    match addCommand self (mergedPath ns p) c with
    | Except.error e => Except.error e
    | Except.ok self' => mergeRegistries self' rest ns

/-! ### manager.ext.aws.configs (embedded from `src/manager/ext/aws/configs.py`) -/

/-- Embeds `get_namespace_key`: splits the path on `.`; one segment
keeps the `all` namespace, two segments are namespace and key, anything
else raises `Invalid key path`. -/
def get_namespace_key (path : String) : Except String (String × String) :=
  match pySplitChar '.' path with
  | [v] => Except.ok ("all", v)
  | [a, b] => Except.ok (a, b)
  | _ => Except.error "Invalid key path"

/-- Embeds `"%03d" % i`: the decimal representation left-padded with
zeros to width 3. -/
def fmt3 (n : Nat) : String :=
  let s := toString n
  String.mk (List.replicate (3 - s.length) '0' ++ s.data)

/-- Embeds `get_value`: the item's values joined in sorted-key order
(shortened to the first such line when `shorten` is set; items stored by
`set` are never empty, so the shortened read of an empty item is modelled
as the empty string). -/
def get_value (item : List (String × String)) (shorten : Bool) : String :=
  let lines := (pySorted (item.map Prod.fst)).map (fun k => (dictGet k item).getD "")
  if shorten then lines.headD "" else String.intercalate "\n" lines

/-- Embeds the dictionary built by `set`: line `i` of the value stored
under key `"%03d" % i`. -/
def setEncode (value : String) : List (String × String) :=
  (pySplitlines value).enum.map (fun p => (fmt3 p.1, p.2))

/-- The item keys `set` produces for an `n`-line value. -/
def sdbKeys (n : Nat) : List String := (List.range n).map fmt3

/-- Strict sortedness check for a key list, under Python's string
order. -/
def chainLtB : List String → Bool
  | [] => true
  | [_] => true
  | a :: b :: rest => pyStrLt a b && chainLtB (b :: rest)

/-- One SimpleDB item: its name and its attribute mapping. -/
structure Item : Type where
  name : String
  attrs : List (String × String)

/-- One SimpleDB domain: its name and its items. -/
structure Domain : Type where
  name : String
  items : List Item

/-- Embeds the domain-selection test of the `list` command:
`namespace == '' or domain.name == 'all' or namespace != '' and
domain.name == namespace`. -/
def selectDomain (ns : String) (d : Domain) : Bool :=
  decide (ns = "") || decide (d.name = "all") ||
    (!(decide (ns = "")) && decide (d.name = ns))

/-- Embeds the key-prefix choice of the `list` command: no prefix when a
namespace was requested or for the `all` domain, else the domain name
and a dot. -/
def listKeyPfx (ns : String) (d : Domain) : String :=
  if !(decide (ns = "")) || decide (d.name = "all") then "" else d.name ++ "."

/-- Embeds the inner loop of the `list` command over one domain's
items. -/
def listDomainItems (ns : String) (expand : Bool) (d : Domain)
    (acc : List (String × String)) : List (String × String) :=
  d.items.foldl
    (fun acc2 it =>
      dictInsert (listKeyPfx ns d ++ it.name) (get_value it.attrs (!expand)) acc2)
    acc

/-- Embeds the `list` command: iterates all domains, keeps the selected
ones and accumulates their items into one result dictionary. -/
def listCmd (domains : List Domain) (ns : String) (expand : Bool) :
    List (String × String) :=
  domains.foldl
    (fun acc d => if selectDomain ns d then listDomainItems ns expand d acc else acc)
    []

/-! ### Order lemmas for the Python string comparison -/

theorem charListLtB_nil_right (l : List Char) : charListLtB l [] = false := by
  cases l <;> rfl

theorem charListLtB_cons_iff (x y : Char) (xs ys : List Char) :
    charListLtB (x :: xs) (y :: ys) = true ↔
      x.toNat < y.toNat ∨ (x.toNat = y.toNat ∧ charListLtB xs ys = true) := by
  simp only [charListLtB, charLtB]
  by_cases h1 : x.toNat < y.toNat
  · simp [h1]
  · by_cases h2 : y.toNat < x.toNat
    · simp [h1, h2]
      omega
    · simp [h1, h2]
      omega

theorem charListLtB_cons_false_iff (x y : Char) (xs ys : List Char) :
    charListLtB (x :: xs) (y :: ys) = false ↔
      y.toNat < x.toNat ∨ (x.toNat = y.toNat ∧ charListLtB xs ys = false) := by
  rw [← Bool.not_eq_true, charListLtB_cons_iff]
  cases h : charListLtB xs ys <;> simp [h] <;> omega

theorem charListLtB_irrefl (l : List Char) : charListLtB l l = false := by
  induction l with
  | nil => rfl
  | cons x xs ih => rw [charListLtB_cons_false_iff]; exact Or.inr ⟨rfl, ih⟩

theorem charListLtB_trans :
    ∀ (a b c : List Char), charListLtB a b = true → charListLtB b c = true →
      charListLtB a c = true := by
  intro a
  induction a with
  | nil =>
    intro b c hab hbc
    cases b with
    | nil => simp [charListLtB] at hab
    | cons y ys =>
      cases c with
      | nil => simp [charListLtB_nil_right] at hbc
      | cons z zs => rfl
  | cons x xs ih =>
    intro b c hab hbc
    cases b with
    | nil => simp [charListLtB_nil_right] at hab
    | cons y ys =>
      cases c with
      | nil => simp [charListLtB_nil_right] at hbc
      | cons z zs =>
        rw [charListLtB_cons_iff] at hab hbc ⊢
        rcases hab with h | ⟨hxy, hab'⟩
        · rcases hbc with h' | ⟨hyz, _⟩
          · exact Or.inl (by omega)
          · exact Or.inl (by omega)
        · rcases hbc with h' | ⟨hyz, hbc'⟩
          · exact Or.inl (by omega)
          · exact Or.inr ⟨by omega, ih ys zs hab' hbc'⟩

theorem charListLtB_not_lt_trans :
    ∀ (a b c : List Char), charListLtB b a = false → charListLtB c b = false →
      charListLtB c a = false := by
  intro a
  induction a with
  | nil =>
    intro b c _ _
    exact charListLtB_nil_right c
  | cons x xs ih =>
    intro b c hab hbc
    cases b with
    | nil => simp [charListLtB] at hab
    | cons y ys =>
      cases c with
      | nil => simp [charListLtB] at hbc
      | cons z zs =>
        rw [charListLtB_cons_false_iff] at hab hbc ⊢
        rcases hab with h | ⟨hxy, hab'⟩
        · rcases hbc with h' | ⟨hyz, _⟩
          · exact Or.inl (by omega)
          · exact Or.inl (by omega)
        · rcases hbc with h' | ⟨hyz, hbc'⟩
          · exact Or.inl (by omega)
          · exact Or.inr ⟨by omega, ih ys zs hab' hbc'⟩

theorem charListLtB_asymm {a b : List Char} (h : charListLtB a b = true) :
    charListLtB b a = false := by
  cases hba : charListLtB b a with
  | false => rfl
  | true =>
    have := charListLtB_trans a b a h hba
    rw [charListLtB_irrefl] at this
    exact absurd this (by simp)

theorem pyStrLt_trans {a b c : String} (hab : pyStrLt a b = true)
    (hbc : pyStrLt b c = true) : pyStrLt a c = true :=
  charListLtB_trans a.data b.data c.data hab hbc

theorem pyStrLt_asymm {a b : String} (h : pyStrLt a b = true) : pyStrLt b a = false :=
  charListLtB_asymm h

theorem pyStrLt_irrefl (a : String) : pyStrLt a a = false :=
  charListLtB_irrefl a.data

theorem pyStrLeP_trans {a b c : String} (hab : pyStrLeP a b) (hbc : pyStrLeP b c) :
    pyStrLeP a c := by
  simp only [pyStrLeP, pyStrLe, Bool.not_eq_true'] at hab hbc ⊢
  exact charListLtB_not_lt_trans a.data b.data c.data hab hbc

theorem pyStrLeP_total (a b : String) : pyStrLeP a b ∨ pyStrLeP b a := by
  simp only [pyStrLeP, pyStrLe, Bool.not_eq_true']
  cases h : pyStrLt b a with
  | false => exact Or.inl rfl
  | true => exact Or.inr (pyStrLt_asymm h)

theorem pyStrLt_le {a b : String} (h : pyStrLt a b = true) : pyStrLeP a b := by
  simp only [pyStrLeP, pyStrLe, Bool.not_eq_true']
  exact pyStrLt_asymm h

theorem pyStrLt_ne {a b : String} (h : pyStrLt a b = true) : a ≠ b := by
  intro he
  rw [he, pyStrLt_irrefl] at h
  exact absurd h (by simp)

/-! ### Sortedness of the keys built by `set` -/

theorem chainLtB_pairwise :
    ∀ l : List String, chainLtB l = true → l.Pairwise (fun a b => pyStrLt a b = true) := by
  intro l
  induction l with
  | nil => intro _; exact List.Pairwise.nil
  | cons a rest ih =>
    cases rest with
    | nil => intro _; simp
    | cons b rest' =>
      intro h
      simp only [chainLtB, Bool.and_eq_true] at h
      have hpw := ih h.2
      refine List.pairwise_cons.mpr ⟨?_, hpw⟩
      intro x hx
      rcases List.mem_cons.mp hx with rfl | hx'
      · exact h.1
      · exact pyStrLt_trans h.1 (List.rel_of_pairwise_cons hpw hx')

set_option maxRecDepth 100000 in
theorem sdbKeys_chain_1000 : chainLtB (sdbKeys 1000) = true := by decide

theorem sdbKeys_take {n : Nat} (h : n ≤ 1000) : sdbKeys n = (sdbKeys 1000).take n := by
  unfold sdbKeys
  rw [← List.map_take, List.take_range, Nat.min_eq_left h]

theorem sdbKeys_pairwise_lt {n : Nat} (h : n ≤ 1000) :
    (sdbKeys n).Pairwise (fun a b => pyStrLt a b = true) := by
  rw [sdbKeys_take h]
  exact List.Pairwise.sublist (List.take_sublist n _)
    (chainLtB_pairwise _ sdbKeys_chain_1000)

theorem sdbKeys_sorted {n : Nat} (h : n ≤ 1000) : (sdbKeys n).Pairwise pyStrLeP :=
  (sdbKeys_pairwise_lt h).imp (fun hlt => pyStrLt_le hlt)

theorem sdbKeys_nodup {n : Nat} (h : n ≤ 1000) : (sdbKeys n).Pairwise (· ≠ ·) :=
  (sdbKeys_pairwise_lt h).imp (fun hlt => pyStrLt_ne hlt)

theorem pySorted_sdbKeys {n : Nat} (h : n ≤ 1000) : pySorted (sdbKeys n) = sdbKeys n :=
  List.Sorted.insertionSort_eq (sdbKeys_sorted h)

/-! ### Reading back what `set` stored -/

theorem dictGet_cons_ne {k k' v : String} {d : List (String × String)} (h : k ≠ k') :
    dictGet k ((k', v) :: d) = dictGet k d := by
  simp [dictGet, h]

theorem map_dictGet_zip :
    ∀ (ks vs : List String), ks.Pairwise (· ≠ ·) → ks.length = vs.length →
      ks.map (fun k => (dictGet k (ks.zip vs)).getD "") = vs := by
  intro ks
  induction ks with
  | nil =>
    intro vs _ hlen
    cases vs with
    | nil => rfl
    | cons v vs' => simp at hlen
  | cons k ks' ih =>
    intro vs hnd hlen
    cases vs with
    | nil => simp at hlen
    | cons v vs' =>
      have hnd' := List.pairwise_cons.mp hnd
      simp only [List.zip_cons_cons, List.map_cons]
      congr 1
      · simp [dictGet]
      · calc ks'.map (fun k' => (dictGet k' ((k, v) :: ks'.zip vs')).getD "")
            = ks'.map (fun k' => (dictGet k' (ks'.zip vs')).getD "") := by
              apply List.map_congr_left
              intro x hx
              rw [dictGet_cons_ne (Ne.symm (hnd'.1 x hx))]
          _ = vs' := ih vs' hnd'.2 (by simpa using hlen)

theorem setEncode_eq_zip (v : String) :
    setEncode v = (sdbKeys (pySplitlines v).length).zip (pySplitlines v) := by
  unfold setEncode sdbKeys
  rw [List.enum_eq_zip_range, List.zip_map_left]
  apply List.map_congr_left
  intro p _
  rfl

theorem setEncode_keys (v : String) :
    (setEncode v).map Prod.fst = sdbKeys (pySplitlines v).length := by
  rw [setEncode_eq_zip, List.map_fst_zip]
  simp [sdbKeys]

theorem set_roundtrip_aux {v : String} (h : (pySplitlines v).length ≤ 1000) :
    get_value (setEncode v) false = String.intercalate "\n" (pySplitlines v) := by
  unfold get_value
  rw [setEncode_keys, pySorted_sdbKeys h, setEncode_eq_zip]
  simp only [Bool.false_eq_true, if_false]
  congr 1
  exact map_dictGet_zip _ _ (sdbKeys_nodup h) (by simp [sdbKeys])

theorem sdbKeys_not_sorted_aux {n : Nat} (hn : 1000 < n) :
    pySorted (sdbKeys n) ≠ sdbKeys n := by
  intro h
  haveI : IsTotal String pyStrLeP := ⟨pyStrLeP_total⟩
  haveI : IsTrans String pyStrLeP := ⟨fun _ _ _ => pyStrLeP_trans⟩
  have hs : (sdbKeys n).Pairwise pyStrLeP := by
    have hsorted := List.sorted_insertionSort pyStrLeP (sdbKeys n)
    rw [show List.insertionSort pyStrLeP (sdbKeys n) = pySorted (sdbKeys n) from rfl, h]
      at hsorted
    exact hsorted
  rw [List.pairwise_iff_getElem] at hs
  have h999 : (999 : Nat) < (sdbKeys n).length := by simp [sdbKeys]; omega
  have h1000 : (1000 : Nat) < (sdbKeys n).length := by simp [sdbKeys]; omega
  have hrel := hs 999 1000 h999 h1000 (by omega)
  simp only [sdbKeys, List.getElem_map, List.getElem_range] at hrel
  exact absurd hrel (by decide)

/-! ### Splitting lemmas -/

theorem pySplitCharAux_no_sep (sep : Char) :
    ∀ (l acc : List Char), l.countP (fun c => c.toNat = sep.toNat) = 0 →
      pySplitCharAux sep l acc = [acc.reverse ++ l] := by
  intro l
  induction l with
  | nil => intro acc _; simp [pySplitCharAux]
  | cons c rest ih =>
    intro acc hcount
    rw [List.countP_cons] at hcount
    have hc : ¬(c.toNat = sep.toNat) := by
      intro h
      simp [h] at hcount
    have hrest : rest.countP (fun x => decide (x.toNat = sep.toNat)) = 0 := by omega
    simp only [pySplitlinesAux, pySplitCharAux, if_neg hc]
    rw [ih (c :: acc) hrest]
    simp

theorem pySplitCharAux_append_sep (sep : Char) :
    ∀ (l₁ l₂ acc : List Char),
      pySplitCharAux sep (l₁ ++ sep :: l₂) acc =
        pySplitCharAux sep l₁ acc ++ pySplitCharAux sep l₂ [] := by
  intro l₁
  induction l₁ with
  | nil =>
    intro l₂ acc
    simp [pySplitCharAux]
  | cons c rest ih =>
    intro l₂ acc
    by_cases hc : c.toNat = sep.toNat
    · simp only [List.cons_append, pySplitCharAux, if_pos hc, List.append_eq]
      rw [ih]
    · simp only [List.cons_append, pySplitCharAux, if_neg hc, List.append_eq]
      rw [ih]

theorem pySplitCharAux_length (sep : Char) :
    ∀ (l acc : List Char),
      (pySplitCharAux sep l acc).length = l.countP (fun c => c.toNat = sep.toNat) + 1 := by
  intro l
  induction l with
  | nil => intro acc; simp [pySplitCharAux]
  | cons c rest ih =>
    intro acc
    rw [List.countP_cons]
    by_cases hc : c.toNat = sep.toNat
    · simp only [pySplitCharAux, if_pos hc, List.length_cons, ih]
      simp [hc]
    · simp only [pySplitCharAux, if_neg hc, ih]
      simp [hc]

theorem pySplitChar_no_sep {sep : Char} {s : String} (h : sepCount sep s = 0) :
    pySplitChar sep s = [s] := by
  unfold pySplitChar
  rw [pySplitCharAux_no_sep sep s.data [] h]
  simp only [List.map_cons, List.map_nil, List.nil_append]
  cases s
  rfl

theorem pySplitChar_length (sep : Char) (s : String) :
    (pySplitChar sep s).length = sepCount sep s + 1 := by
  unfold pySplitChar sepCount
  rw [List.length_map, pySplitCharAux_length]

theorem pySplitChar_append_sep (sep : Char) (s₁ s₂ : String) :
    pySplitChar sep (s₁ ++ String.mk [sep] ++ s₂) =
      pySplitChar sep s₁ ++ pySplitChar sep s₂ := by
  unfold pySplitChar
  have hdata : (s₁ ++ String.mk [sep] ++ s₂).data = s₁.data ++ sep :: s₂.data := by
    simp [String.data_append]
  rw [hdata, pySplitCharAux_append_sep, List.map_append]

/-! ### Dictionary lemmas -/

theorem dictGet_dictInsert (k k' v : String) :
    ∀ d, dictGet k (dictInsert k' v d) = if k = k' then some v else dictGet k d := by
  intro d
  induction d with
  | nil => by_cases h : k = k' <;> simp [dictInsert, dictGet, h]
  | cons p rest ih =>
    obtain ⟨k₀, v₀⟩ := p
    by_cases h0 : k₀ = k'
    · have he : dictInsert k' v ((k₀, v₀) :: rest) = dictInsert k' v rest := by
        simp [dictInsert, List.filter_cons, h0]
      rw [he, ih]
      by_cases hk : k = k'
      · simp [hk]
      · have hk0 : ¬(k = k₀) := by rw [h0]; exact hk
        simp [hk, dictGet, hk0]
    · have he : dictInsert k' v ((k₀, v₀) :: rest) = (k₀, v₀) :: dictInsert k' v rest := by
        simp [dictInsert, List.filter_cons, h0]
      rw [he]
      by_cases hk : k = k₀
      · have hkk : ¬(k = k') := by rw [hk]; exact h0
        simp [dictGet, hk, hkk, h0]
      · simp [dictGet, hk, ih]

theorem dictGet_dictInsert_isSome (k k' v : String) (d : List (String × String))
    (h : (dictGet k d).isSome = true) :
    (dictGet k (dictInsert k' v d)).isSome = true := by
  rw [dictGet_dictInsert]
  by_cases hk : k = k' <;> simp [hk, h]

theorem dictFoldItems_pres (key val : Item → String) :
    ∀ (items : List Item) (acc : List (String × String)) (k : String),
      (dictGet k acc).isSome = true →
      (dictGet k (items.foldl (fun a it => dictInsert (key it) (val it) a) acc)).isSome
        = true := by
  intro items
  induction items with
  | nil => intro acc k h; exact h
  | cons it rest ih =>
    intro acc k h
    simp only [List.foldl_cons]
    exact ih _ k (dictGet_dictInsert_isSome _ _ _ _ h)

theorem dictFoldItems_mem (key val : Item → String) :
    ∀ (items : List Item) (acc : List (String × String)) (it : Item), it ∈ items →
      (dictGet (key it)
        (items.foldl (fun a i => dictInsert (key i) (val i) a) acc)).isSome = true := by
  intro items
  induction items with
  | nil => intro acc it h; simp at h
  | cons it₀ rest ih =>
    intro acc it hmem
    simp only [List.foldl_cons]
    rcases List.mem_cons.mp hmem with rfl | h'
    · apply dictFoldItems_pres
      rw [dictGet_dictInsert]
      simp
    · exact ih _ it h'

theorem listDomainItems_eq (ns : String) (e : Bool) (d : Domain)
    (acc : List (String × String)) :
    listDomainItems ns e d acc =
      d.items.foldl
        (fun a it => dictInsert (listKeyPfx ns d ++ it.name) (get_value it.attrs (!e)) a)
        acc := rfl

theorem listCmdFold_pres (ns : String) (e : Bool) :
    ∀ (ds : List Domain) (acc : List (String × String)) (k : String),
      (dictGet k acc).isSome = true →
      (dictGet k (ds.foldl
        (fun acc d => if selectDomain ns d then listDomainItems ns e d acc else acc)
        acc)).isSome = true := by
  intro ds
  induction ds with
  | nil => intro acc k h; exact h
  | cons d rest ih =>
    intro acc k h
    simp only [List.foldl_cons]
    by_cases hsel : selectDomain ns d = true
    · rw [if_pos hsel]
      exact ih _ k (by rw [listDomainItems_eq]; exact dictFoldItems_pres _ _ _ _ _ h)
    · rw [if_neg hsel]
      exact ih _ k h

theorem listCmdFold_mem (ns : String) (e : Bool) :
    ∀ (ds : List Domain) (acc : List (String × String)) (d : Domain), d ∈ ds →
      selectDomain ns d = true → ∀ it : Item, it ∈ d.items →
      (dictGet (listKeyPfx ns d ++ it.name) (ds.foldl
        (fun acc d => if selectDomain ns d then listDomainItems ns e d acc else acc)
        acc)).isSome = true := by
  intro ds
  induction ds with
  | nil => intro acc d h; simp at h
  | cons d₀ rest ih =>
    intro acc d hmem hsel it hit
    simp only [List.foldl_cons]
    rcases List.mem_cons.mp hmem with rfl | h'
    · rw [if_pos hsel]
      apply listCmdFold_pres
      rw [listDomainItems_eq]
      exact dictFoldItems_mem (fun i => listKeyPfx ns d ++ i.name)
        (fun i => get_value i.attrs (!e)) d.items acc it hit
    · exact ih _ d h' hsel it hit

/-! ### Registry lemmas -/

theorem regGet_append_left (k : String) :
    ∀ (r₁ r₂ : Registry), (regGet k r₁).isSome = true →
      regGet k (r₁ ++ r₂) = regGet k r₁ := by
  intro r₁
  induction r₁ with
  | nil => intro r₂ h; simp [regGet] at h
  | cons p rest ih =>
    intro r₂ h
    obtain ⟨k', c⟩ := p
    simp only [List.cons_append, regGet] at h ⊢
    by_cases hk : k = k'
    · simp [hk]
    · simp only [if_neg hk] at h ⊢
      exact ih r₂ h

theorem regGet_append_some (k : String) (c : Cmd) :
    ∀ (r₁ : Registry), regGet k r₁ = Option.none →
      regGet k (r₁ ++ [(k, c)]) = some c := by
  intro r₁
  induction r₁ with
  | nil => intro _; simp [regGet]
  | cons p rest ih =>
    intro h
    obtain ⟨k', c'⟩ := p
    simp only [List.cons_append, regGet] at h ⊢
    by_cases hk : k = k'
    · simp [hk] at h
    · simp only [if_neg hk] at h ⊢
      exact ih h

theorem mergeRegistries_ext :
    ∀ (other self r : Registry) (ns : Option String),
      mergeRegistries self other ns = Except.ok r → ∃ ext, r = self ++ ext := by
  intro other
  induction other with
  | nil =>
    intro self r ns h
    simp only [mergeRegistries] at h
    refine ⟨[], ?_⟩
    cases h
    simp
  | cons pc rest ih =>
    obtain ⟨p, c⟩ := pc
    intro self r ns h
    simp only [mergeRegistries] at h
    cases hadd : addCommand self (mergedPath ns p) c with
    | error e => rw [hadd] at h; simp at h
    | ok self' =>
      rw [hadd] at h
      dsimp only at h
      obtain ⟨ext, hext⟩ := ih self' r ns h
      unfold addCommand at hadd
      by_cases hp : (regGet (mergedPath ns p) self).isSome = true
      · rw [if_pos hp] at hadd; simp at hadd
      · rw [if_neg hp] at hadd
        injection hadd with h'
        refine ⟨(mergedPath ns p, c) :: ext, ?_⟩
        rw [hext, ← h']
        simp

theorem mergeRegistries_keys :
    ∀ (other self r : Registry) (ns : Option String),
      mergeRegistries self other ns = Except.ok r →
      r.map Prod.fst = self.map Prod.fst ++ other.map (fun pc => mergedPath ns pc.1) := by
  intro other
  induction other with
  | nil =>
    intro self r ns h
    simp only [mergeRegistries] at h
    cases h
    simp
  | cons pc rest ih =>
    obtain ⟨p, c⟩ := pc
    intro self r ns h
    simp only [mergeRegistries] at h
    cases hadd : addCommand self (mergedPath ns p) c with
    | error e => rw [hadd] at h; simp at h
    | ok self' =>
      rw [hadd] at h
      dsimp only at h
      have hkeys := ih self' r ns h
      unfold addCommand at hadd
      by_cases hp : (regGet (mergedPath ns p) self).isSome = true
      · rw [if_pos hp] at hadd; simp at hadd
      · rw [if_neg hp] at hadd
        injection hadd with h'
        rw [hkeys, ← h']
        simp

theorem mergeRegistries_mem :
    ∀ (other self r : Registry) (ns : Option String) (p : String) (c : Cmd),
      (p, c) ∈ other → mergeRegistries self other ns = Except.ok r →
      regGet (mergedPath ns p) r = some c := by
  intro other
  induction other with
  | nil => intro self r ns p c hmem; simp at hmem
  | cons pc rest ih =>
    obtain ⟨p₀, c₀⟩ := pc
    intro self r ns p c hmem h
    simp only [mergeRegistries] at h
    cases hadd : addCommand self (mergedPath ns p₀) c₀ with
    | error e => rw [hadd] at h; simp at h
    | ok self' =>
      rw [hadd] at h
      dsimp only at h
      unfold addCommand at hadd
      by_cases hp : (regGet (mergedPath ns p₀) self).isSome = true
      · rw [if_pos hp] at hadd; simp at hadd
      · rw [if_neg hp] at hadd
        injection hadd with h'
        rcases List.mem_cons.mp hmem with heq | hmem'
        · simp only [Prod.mk.injEq] at heq
          obtain ⟨rfl, rfl⟩ := heq
          have hnone : regGet (mergedPath ns p) self = Option.none := by
            cases hre : regGet (mergedPath ns p) self with
            | none => rfl
            | some x => rw [hre] at hp; simp at hp
          have hself : regGet (mergedPath ns p) self' = some c := by
            rw [← h']
            exact regGet_append_some _ _ _ hnone
          obtain ⟨ext, hext⟩ := mergeRegistries_ext rest self' r ns h
          rw [hext, regGet_append_left _ _ _ (by rw [hself]; rfl)]
          exact hself
        · exact ih self' r ns p c hmem' h

theorem mergeRegistries_frame :
    ∀ (other self r : Registry) (ns : Option String) (k : String),
      mergeRegistries self other ns = Except.ok r →
      (regGet k self).isSome = true → regGet k r = regGet k self := by
  intro other self r ns k h hk
  obtain ⟨ext, hext⟩ := mergeRegistries_ext other self r ns h
  rw [hext]
  exact regGet_append_left k self ext hk

/-! ### Environment-binding lemmas -/

theorem resolveEnv_error_aux :
    ∀ (bs : List EnvBinding) (environ : List (String × String)) (b : EnvBinding),
      b ∈ bs → b.value = Option.none → dictGet b.var environ = Option.none →
      ∃ w, resolveEnvBindings bs environ = Except.error w := by
  intro bs
  induction bs with
  | nil => intro environ b h; simp at h
  | cons b₀ rest ih =>
    intro environ b hmem hval henv
    rcases List.mem_cons.mp hmem with rfl | hmem'
    · refine ⟨b.var, ?_⟩
      simp only [resolveEnvBindings, henv, hval]
    · obtain ⟨w, hw⟩ := ih environ b hmem' hval henv
      simp only [resolveEnvBindings]
      cases hv : dictGet b₀.var environ with
      | some v =>
        rw [hw]
        exact ⟨w, rfl⟩
      | none =>
        cases hval₀ : b₀.value with
        | some d =>
          rw [hw]
          exact ⟨w, rfl⟩
        | none => exact ⟨b₀.var, rfl⟩

theorem resolveEnv_ok_aux :
    ∀ (bs : List EnvBinding) (environ : List (String × String)) (r : List (String × String)),
      resolveEnvBindings bs environ = Except.ok r →
      ∀ b, b ∈ bs →
        (∀ v, dictGet b.var environ = some v → (b.param, v) ∈ r) ∧
        (∀ d, dictGet b.var environ = Option.none → b.value = some d → (b.param, d) ∈ r) := by
  intro bs
  induction bs with
  | nil => intro environ r _ b hmem; simp at hmem
  | cons b₀ rest ih =>
    intro environ r hok b hmem
    simp only [resolveEnvBindings] at hok
    cases hv : dictGet b₀.var environ with
    | some v =>
      rw [hv] at hok
      cases hrest : resolveEnvBindings rest environ with
      | error e => rw [hrest] at hok; simp [Except.map] at hok
      | ok r' =>
        rw [hrest] at hok
        simp only [Except.map] at hok
        injection hok with h'
        rcases List.mem_cons.mp hmem with rfl | hmem'
        · constructor
          · intro v' hv'
            rw [hv] at hv'
            injection hv' with hv''
            rw [← h', ← hv'']
            exact List.mem_cons_self _ _
          · intro d hnone
            rw [hv] at hnone
            exact absurd hnone (by simp)
        · have hb := ih environ r' hrest b hmem'
          constructor
          · intro v' hv'
            rw [← h']
            exact List.mem_cons_of_mem _ (hb.1 v' hv')
          · intro d hnone hval
            rw [← h']
            exact List.mem_cons_of_mem _ (hb.2 d hnone hval)
    | none =>
      rw [hv] at hok
      cases hval₀ : b₀.value with
      | some d₀ =>
        rw [hval₀] at hok
        cases hrest : resolveEnvBindings rest environ with
        | error e => rw [hrest] at hok; simp [Except.map] at hok
        | ok r' =>
          rw [hrest] at hok
          simp only [Except.map] at hok
          injection hok with h'
          rcases List.mem_cons.mp hmem with rfl | hmem'
          · constructor
            · intro v' hv'
              rw [hv] at hv'
              exact absurd hv' (by simp)
            · intro d hnone hval
              rw [hval₀] at hval
              injection hval with hd
              rw [← h', ← hd]
              exact List.mem_cons_self _ _
          · have hb := ih environ r' hrest b hmem'
            constructor
            · intro v' hv'
              rw [← h']
              exact List.mem_cons_of_mem _ (hb.1 v' hv')
            · intro d hnone hval
              rw [← h']
              exact List.mem_cons_of_mem _ (hb.2 d hnone hval)
      | none =>
        rw [hval₀] at hok
        simp at hok

/-! ### Line-splitting of the strList output -/

theorem pySplitlinesAux_clean :
    ∀ (s rest acc : List Char),
      (∀ c, c ∈ s → ¬(c.toNat = 10 ∨ c.toNat = 13)) →
      pySplitlinesAux (s ++ '\n' :: rest) acc =
        (acc.reverse ++ s) :: pySplitlinesAux rest [] := by
  intro s
  induction s with
  | nil =>
    intro rest acc _
    cases rest with
    | nil =>
      simp only [List.nil_append, List.append_nil]
      rfl
    | cons r rs =>
      simp only [List.nil_append, List.append_nil]
      rfl
  | cons c s' ih =>
    intro rest acc hclean
    have hc := hclean c (List.mem_cons_self _ _)
    have hc13 : ¬(c.toNat = 13) := fun h => hc (Or.inr h)
    have hc10 : ¬(c.toNat = 10) := fun h => hc (Or.inl h)
    cases hsp : s' ++ '\n' :: rest with
    | nil => exact absurd hsp (by simp)
    | cons c2 tail =>
      have hstep : pySplitlinesAux (c :: s' ++ '\n' :: rest) acc
          = pySplitlinesAux (s' ++ '\n' :: rest) (c :: acc) := by
        rw [List.cons_append, hsp]
        simp only [pySplitlinesAux, if_neg hc13, if_neg hc10]
      rw [hstep, ih rest (c :: acc) (fun x hx => hclean x (List.mem_cons_of_mem _ hx))]
      simp

theorem puts_strList_lines :
    ∀ ls : List String,
      (∀ l, l ∈ ls → ∀ c, c ∈ (rstripNl l).data → ¬(c.toNat = 10 ∨ c.toNat = 13)) →
      pySplitlines (puts (Ret.strList ls)).1 = ls.map rstripNl := by
  intro ls
  induction ls with
  | nil => intro _; rfl
  | cons l rest ih =>
    intro h
    have ht := ih (fun x hx => h x (List.mem_cons_of_mem _ hx))
    have hout : (puts (Ret.strList (l :: rest))).1
        = (rstripNl l ++ "\n") ++ (puts (Ret.strList rest)).1 := rfl
    show (pySplitlinesAux (puts (Ret.strList (l :: rest))).1.data []).map String.mk
        = (l :: rest).map rstripNl
    rw [hout]
    have hdata : ((rstripNl l ++ "\n") ++ (puts (Ret.strList rest)).1).data
        = (rstripNl l).data ++ '\n' :: (puts (Ret.strList rest)).1.data := by
      simp
    rw [hdata,
      pySplitlinesAux_clean (rstripNl l).data _ [] (h l (List.mem_cons_self _ _))]
    simp only [List.reverse_nil, List.nil_append, List.map_cons]
    rw [show (pySplitlinesAux (puts (Ret.strList rest)).1.data []).map String.mk
        = pySplitlines (puts (Ret.strList rest)).1 from rfl, ht]

/-! ### parse_env lemmas -/

theorem str_empty_append (s : String) : "" ++ s = s := rfl

theorem pySplitChar_nl_append (t₁ t₂ : String) :
    pySplitChar '\n' (t₁ ++ "\n" ++ t₂) = pySplitChar '\n' t₁ ++ pySplitChar '\n' t₂ :=
  pySplitChar_append_sep '\n' t₁ t₂

theorem parse_env_cat (t₁ t₂ : String) :
    parse_env (t₁ ++ "\n" ++ t₂) = (pySplitChar '\n' t₂).foldl envStep (parse_env t₁) := by
  unfold parse_env
  rw [pySplitChar_nl_append, List.foldl_append]

theorem parse_env_last_wins (l₁ l₂ k v₁ v₂ : String)
    (h1 : sepCount '\n' l₁ = 0) (h2 : sepCount '\n' l₂ = 0)
    (hp1 : parseEnvLine l₁ = some (k, v₁)) (hp2 : parseEnvLine l₂ = some (k, v₂)) :
    dictGet k (parse_env (l₁ ++ "\n" ++ l₂)) = some v₂ := by
  unfold parse_env
  rw [pySplitChar_nl_append, pySplitChar_no_sep h1, pySplitChar_no_sep h2]
  simp only [List.singleton_append, List.foldl_cons, List.foldl_nil, envStep, hp1, hp2]
  rw [dictGet_dictInsert]
  simp

/-! ### Claims -/

/-- C1: the Output Normalizer `puts` is a total deterministic mapping: `None`
writes zero bytes; the empty string exactly one newline; boolean `true` the
literal `OK` plus newline; boolean `false` the literal `FAILED` plus newline
and the failure signal (non-zero exit); a sequence of strings writes each
element on its own line with trailing line-break characters stripped. -/
theorem puts_normalizer :
    puts Ret.noneV = ("", true) ∧
    puts (Ret.str "") = ("\n", true) ∧
    puts (Ret.bool true) = ("OK\n", true) ∧
    puts (Ret.bool false) = ("FAILED\n", false) ∧
    ∀ ls : List String,
      (∀ l, l ∈ ls → ∀ c, c ∈ (rstripNl l).data → ¬(c.toNat = 10 ∨ c.toNat = 13)) →
      pySplitlines (puts (Ret.strList ls)).1 = ls.map rstripNl :=
  ⟨rfl, rfl, rfl, rfl, puts_strList_lines⟩

/-- Witness for `puts_normalizer` at the two-element list of the test suite. -/
theorem puts_normalizer_witness :
    (∀ l, l ∈ ["first line\n", "second line\n"] →
      ∀ c, c ∈ (rstripNl l).data → ¬(c.toNat = 10 ∨ c.toNat = 13)) ∧
    pySplitlines (puts (Ret.strList ["first line\n", "second line\n"])).1
      = ["first line", "second line"] :=
  ⟨by decide,
    (puts_normalizer.2.2.2.2 ["first line\n", "second line\n"] (by decide)).trans
      (by decide)⟩

/-- C2: for every callable with parameter list `(a, b=False)` the Signature
Inspector derives exactly two Argument Descriptors in source order: the first
named `a`, required, with no default; the second named `b`, not required,
boolean-typed, with default `False`. -/
theorem inspect_two_params :
    ∀ a b : String,
      inspectParams [⟨a, Option.none⟩, ⟨b, some (PyVal.bool false)⟩] =
        [⟨a, true, Option.none, Option.none⟩,
         ⟨b, false, some (PyVal.bool false), some PyType.bool⟩] :=
  fun _ _ => rfl

/-- C3: for a boolean Argument Descriptor with default `True`, the negating
flag resolves the value to `False` and presenting neither the positive nor
the negating flag leaves it `True`; with default `False` the positive flag
resolves it to `True`. -/
theorem bool_flag_polarity :
    ∀ (name : String) (argv : List String),
      (argv.contains ("--no-" ++ name) = true →
        resolveBoolFlag name true argv = false) ∧
      (argv.contains ("--no-" ++ name) = false →
        argv.contains ("--" ++ name) = false →
        resolveBoolFlag name true argv = true) ∧
      (argv.contains ("--" ++ name) = true →
        resolveBoolFlag name false argv = true) := by
  intro name argv
  refine ⟨?_, ?_, ?_⟩
  · intro h
    simp [resolveBoolFlag, h]
    exact List.elem_iff.mp h
  · intro h _
    simp [resolveBoolFlag, h]
    intro hmem
    have := List.elem_iff.mpr hmem
    rw [List.contains, this] at h
    exact absurd h (by simp)
  · intro h
    simp [resolveBoolFlag, h]
    exact List.elem_iff.mp h

/-- Witness for `bool_flag_polarity` at flag name `verbose`. -/
theorem bool_flag_polarity_witness :
    (["--no-verbose"].contains ("--no-" ++ "verbose") = true ∧
      resolveBoolFlag "verbose" true ["--no-verbose"] = false) ∧
    (([] : List String).contains ("--no-" ++ "verbose") = false ∧
      resolveBoolFlag "verbose" true [] = true) ∧
    (["--verbose"].contains ("--" ++ "verbose") = true ∧
      resolveBoolFlag "verbose" false ["--verbose"] = true) :=
  ⟨⟨by decide, (bool_flag_polarity "verbose" ["--no-verbose"]).1 (by decide)⟩,
   ⟨by decide, (bool_flag_polarity "verbose" []).2.1 (by decide) (by decide)⟩,
   ⟨by decide, (bool_flag_polarity "verbose" ["--verbose"]).2.2 (by decide)⟩⟩

/-- C4: `parse_env` parses a newline-separated `KEY=VALUE` blob into a
name-to-value mapping: matching surrounding quotes are stripped, whitespace
trimmed, lines accumulate into one mapping, and a key occurring on several
lines keeps the value of the last occurrence. -/
theorem parse_env_mapping :
    parse_env "key=value" = [("key", "value")] ∧
    parse_env "key='value'" = [("key", "value")] ∧
    parse_env "key=\"value\"" = [("key", "value")] ∧
    parse_env "key=\"value\"\nanother_key=another value"
      = [("key", "value"), ("another_key", "another value")] ∧
    (∀ t₁ t₂ : String, parse_env (t₁ ++ "\n" ++ t₂)
      = (pySplitChar '\n' t₂).foldl envStep (parse_env t₁)) ∧
    ∀ (l₁ l₂ k v₁ v₂ : String), sepCount '\n' l₁ = 0 → sepCount '\n' l₂ = 0 →
      parseEnvLine l₁ = some (k, v₁) → parseEnvLine l₂ = some (k, v₂) →
      dictGet k (parse_env (l₁ ++ "\n" ++ l₂)) = some v₂ :=
  ⟨by decide, by decide, by decide, by decide, parse_env_cat,
    fun l₁ l₂ k v₁ v₂ => parse_env_last_wins l₁ l₂ k v₁ v₂⟩

/-- Witness for `parse_env_mapping`: the duplicate key keeps the last value. -/
theorem parse_env_mapping_witness :
    (sepCount '\n' "k=a" = 0 ∧ sepCount '\n' "k=b" = 0 ∧
      parseEnvLine "k=a" = some ("k", "a") ∧ parseEnvLine "k=b" = some ("k", "b")) ∧
    dictGet "k" (parse_env ("k=a" ++ "\n" ++ "k=b")) = some "b" :=
  ⟨⟨by decide, by decide, by decide, by decide⟩,
    parse_env_mapping.2.2.2.2.2 "k=a" "k=b" "k" "a" "b" (by decide) (by decide)
      (by decide) (by decide)⟩

/-- C5: with `confirm` set, the prompt engine reads a second value under the
"(again)" prompt variant and returns the value exactly when the two resolved
values compare equal; a mismatch raises the mismatch error and yields no
value. -/
theorem prompt_confirm_matches :
    ∀ (cfg : PromptCfg) (text : String) (reader : String → String) (v₁ v₂ : PVal),
      cfg.confirm = true →
      processValue cfg (reader text) = Except.ok v₁ →
      processValue cfg (reader (text ++ " (again)")) = Except.ok v₂ →
      (prompt cfg text reader = Except.ok v₁ ↔ v₁ = v₂) ∧
      (v₁ ≠ v₂ → prompt cfg text reader = Except.error PErr.mismatch) := by
  intro cfg text reader v₁ v₂ hc h1 h2
  have hred : prompt cfg text reader =
      if v₁ = v₂ then Except.ok v₁ else Except.error PErr.mismatch := by
    simp [prompt, h1, hc, h2]
  constructor
  · rw [hred]
    by_cases he : v₁ = v₂
    · simp [he]
    · simp [he]
  · intro hne
    rw [hred, if_neg hne]

/-- Witness for `prompt_confirm_matches`: matching inputs return the value,
differing inputs raise the mismatch error. -/
theorem prompt_confirm_matches_witness :
    ((⟨false, Option.none, Option.none, false, true⟩ : PromptCfg).confirm = true ∧
      prompt ⟨false, Option.none, Option.none, false, true⟩ "p" (fun _ => "x")
        = Except.ok (PVal.str "x")) ∧
    prompt ⟨false, Option.none, Option.none, false, true⟩ "p"
      (fun t => if t = "p (again)" then "y" else "x") = Except.error PErr.mismatch :=
  ⟨⟨rfl,
    (prompt_confirm_matches ⟨false, Option.none, Option.none, false, true⟩ "p"
      (fun _ => "x") (PVal.str "x") (PVal.str "x") rfl rfl rfl).1.mpr rfl⟩,
   (prompt_confirm_matches ⟨false, Option.none, Option.none, false, true⟩ "p"
      (fun t => if t = "p (again)" then "y" else "x") (PVal.str "x") (PVal.str "y")
      rfl rfl rfl).2 (by decide)⟩

/-- C6: a required env binding whose variable is absent raises a missing-key
failure before the callable runs (the invocation result is that error for
every callable); a present variable passes its value through; an optional
binding with a configured default yields that default when the variable is
absent. -/
theorem env_binding_resolution :
    ∀ (bs : List EnvBinding) (environ : List (String × String)),
      (∀ b, b ∈ bs → b.value = Option.none → dictGet b.var environ = Option.none →
        ∃ w, resolveEnvBindings bs environ = Except.error w ∧
          ∀ call, invokeWithEnv bs environ call = Except.error w) ∧
      (∀ r b v, resolveEnvBindings bs environ = Except.ok r → b ∈ bs →
        dictGet b.var environ = some v → (b.param, v) ∈ r) ∧
      (∀ r b d, resolveEnvBindings bs environ = Except.ok r → b ∈ bs →
        dictGet b.var environ = Option.none → b.value = some d → (b.param, d) ∈ r) := by
  intro bs environ
  refine ⟨?_, ?_, ?_⟩
  · intro b hmem hval henv
    obtain ⟨w, hw⟩ := resolveEnv_error_aux bs environ b hmem hval henv
    refine ⟨w, hw, fun call => ?_⟩
    unfold invokeWithEnv
    rw [hw]
    rfl
  · intro r b v hok hmem hv
    exact (resolveEnv_ok_aux bs environ r hok b hmem).1 v hv
  · intro r b d hok hmem hnone hval
    exact (resolveEnv_ok_aux bs environ r hok b hmem).2 d hnone hval

/-- Witness for `env_binding_resolution` at the REQUIRED/OPTIONAL bindings of
the test suite. -/
theorem env_binding_resolution_witness :
    (∃ w, resolveEnvBindings
        [⟨"REQUIRED", Option.none, "required"⟩, ⟨"OPTIONAL", some "bar", "optional"⟩]
        [] = Except.error w ∧
      ∀ call, invokeWithEnv
        [⟨"REQUIRED", Option.none, "required"⟩, ⟨"OPTIONAL", some "bar", "optional"⟩]
        [] call = Except.error w) ∧
    ("required", "foo") ∈ [("required", "foo"), ("optional", "bar")] ∧
    ("optional", "bar") ∈ [("required", "foo"), ("optional", "bar")] :=
  ⟨(env_binding_resolution
      [⟨"REQUIRED", Option.none, "required"⟩, ⟨"OPTIONAL", some "bar", "optional"⟩]
      []).1 ⟨"REQUIRED", Option.none, "required"⟩ (List.mem_cons_self _ _) rfl rfl,
   (env_binding_resolution
      [⟨"REQUIRED", Option.none, "required"⟩, ⟨"OPTIONAL", some "bar", "optional"⟩]
      [("REQUIRED", "foo")]).2.1 [("required", "foo"), ("optional", "bar")]
      ⟨"REQUIRED", Option.none, "required"⟩ "foo" rfl (List.mem_cons_self _ _) rfl,
   (env_binding_resolution
      [⟨"REQUIRED", Option.none, "required"⟩, ⟨"OPTIONAL", some "bar", "optional"⟩]
      [("REQUIRED", "foo")]).2.2 [("required", "foo"), ("optional", "bar")]
      ⟨"OPTIONAL", some "bar", "optional"⟩ "bar" rfl
      (List.mem_cons_of_mem _ (List.mem_cons_self _ _)) rfl rfl⟩

/-- C7: merging another registry under namespace `x` makes every command of
the other registry available at `x.`-prefixed paths (`x.new_command` for a
command named `new_command`), every copied path is the namespace, a dot and
the original path, and every command already present in the receiving
registry is unchanged. -/
theorem merge_namespaced :
    ∀ (self other r : Registry) (ns : Option String),
      mergeRegistries self other ns = Except.ok r →
      (∀ nsStr p : String, mergedPath (some nsStr) p = nsStr ++ "." ++ p) ∧
      (∀ p c, (p, c) ∈ other → regGet (mergedPath ns p) r = some c) ∧
      (r.map Prod.fst = self.map Prod.fst ++ other.map (fun pc => mergedPath ns pc.1)) ∧
      (∀ k, (regGet k self).isSome = true → regGet k r = regGet k self) := by
  intro self other r ns h
  exact ⟨fun _ _ => rfl,
    fun p c hm => mergeRegistries_mem other self r ns p c hm h,
    mergeRegistries_keys other self r ns h,
    fun k hk => mergeRegistries_frame other self r ns k h hk⟩

/-- Witness for `merge_namespaced`: a registry holding `new_command` merged
under namespace `x` lands at `x.new_command` and leaves `old` untouched. -/
theorem merge_namespaced_witness :
    mergeRegistries [("old", ⟨"old"⟩)] [("new_command", ⟨"new_command"⟩)] (some "x")
      = Except.ok [("old", ⟨"old"⟩), ("x.new_command", ⟨"new_command"⟩)] ∧
    regGet (mergedPath (some "x") "new_command")
      [("old", ⟨"old"⟩), ("x.new_command", ⟨"new_command"⟩)] = some ⟨"new_command"⟩ ∧
    regGet "old" [("old", ⟨"old"⟩), ("x.new_command", ⟨"new_command"⟩)]
      = regGet "old" [("old", ⟨"old"⟩)] :=
  ⟨rfl,
   (merge_namespaced [("old", ⟨"old"⟩)] [("new_command", ⟨"new_command"⟩)]
      [("old", ⟨"old"⟩), ("x.new_command", ⟨"new_command"⟩)] (some "x") rfl).2.1
      "new_command" ⟨"new_command"⟩ (List.mem_cons_self _ _),
   (merge_namespaced [("old", ⟨"old"⟩)] [("new_command", ⟨"new_command"⟩)]
      [("old", ⟨"old"⟩), ("x.new_command", ⟨"new_command"⟩)] (some "x") rfl).2.2.2
      "old" rfl⟩

/-- C8: encoding a config value with `set` (line `i` under key `"%03d" % i`)
and reading it back with `get_value` (values joined by newline in sorted-key
order, `shorten` false) round-trips for every value of at most 1000 lines;
beyond 1000 lines the sorted-key order no longer matches the line order. -/
theorem config_roundtrip :
    (∀ v : String, (pySplitlines v).length ≤ 1000 →
      get_value (setEncode v) false = String.intercalate "\n" (pySplitlines v)) ∧
    ∀ n : Nat, 1000 < n → pySorted (sdbKeys n) ≠ sdbKeys n :=
  ⟨fun _ h => set_roundtrip_aux h, fun _ hn => sdbKeys_not_sorted_aux hn⟩

/-- Witness for `config_roundtrip` at a two-line value and at 1001 keys. -/
theorem config_roundtrip_witness :
    ((pySplitlines "a\nb").length ≤ 1000 ∧
      get_value (setEncode "a\nb") false = "a\nb") ∧
    (1000 < 1001 ∧ pySorted (sdbKeys 1001) ≠ sdbKeys 1001) :=
  ⟨⟨by decide, (config_roundtrip.1 "a\nb" (by decide)).trans (by decide)⟩,
   ⟨by decide, config_roundtrip.2 1001 (by decide)⟩⟩

/-- C9: `get_namespace_key` returns `("all", path)` for a dot-free path, the
two dot-separated segments for a path with exactly one dot, and raises
`Invalid key path` (returning no value) for two or more dots. -/
theorem namespace_key_arity :
    ∀ path : String,
      (sepCount '.' path = 0 → get_namespace_key path = Except.ok ("all", path)) ∧
      (sepCount '.' path = 1 → ∃ a b, pySplitChar '.' path = [a, b] ∧
        get_namespace_key path = Except.ok (a, b)) ∧
      (2 ≤ sepCount '.' path → get_namespace_key path = Except.error "Invalid key path") := by
  intro path
  refine ⟨?_, ?_, ?_⟩
  · intro h
    unfold get_namespace_key
    rw [pySplitChar_no_sep h]
  · intro h
    have hlen : (pySplitChar '.' path).length = 2 := by rw [pySplitChar_length, h]
    obtain ⟨a, b, hab⟩ := List.length_eq_two.mp hlen
    refine ⟨a, b, hab, ?_⟩
    unfold get_namespace_key
    rw [hab]
  · intro h
    have hlen : 3 ≤ (pySplitChar '.' path).length := by rw [pySplitChar_length]; omega
    unfold get_namespace_key
    rcases hsp : pySplitChar '.' path with _ | ⟨a, _ | ⟨b, _ | ⟨c, t⟩⟩⟩ <;>
      first
        | rfl
        | (rw [hsp] at hlen; simp at hlen)

/-- Witness for `namespace_key_arity` at `key`, `ns.key` and `a.b.c`. -/
theorem namespace_key_arity_witness :
    (sepCount '.' "key" = 0 ∧ get_namespace_key "key" = Except.ok ("all", "key")) ∧
    (sepCount '.' "ns.key" = 1 ∧ ∃ a b, pySplitChar '.' "ns.key" = [a, b] ∧
      get_namespace_key "ns.key" = Except.ok (a, b)) ∧
    (2 ≤ sepCount '.' "a.b.c" ∧
      get_namespace_key "a.b.c" = Except.error "Invalid key path") :=
  ⟨⟨by decide, (namespace_key_arity "key").1 (by decide)⟩,
   ⟨by decide, (namespace_key_arity "ns.key").2.1 (by decide)⟩,
   ⟨by decide, (namespace_key_arity "a.b.c").2.2 (by decide)⟩⟩

/-- C10: for a non-empty namespace argument the `list` command selects both
the domain named like the namespace and the domain named `all`, keys every
selected item without any domain-name prefix, and therefore an `all`-domain
key collides with an equal key of the named domain in the result mapping. -/
theorem list_all_namespace_overlap :
    ∀ (ds : List Domain) (ns : String) (e : Bool), ns ≠ "" →
      (∀ d, d ∈ ds → (d.name = "all" ∨ d.name = ns) →
        selectDomain ns d = true ∧ listKeyPfx ns d = "") ∧
      (∀ d, d ∈ ds → (d.name = "all" ∨ d.name = ns) → ∀ it, it ∈ d.items →
        (dictGet it.name (listCmd ds ns e)).isSome = true) ∧
      (∀ (k : String) (va vb : List (String × String)),
        listCmd [⟨"all", [⟨k, va⟩]⟩, ⟨ns, [⟨k, vb⟩]⟩] ns e
          = [(k, get_value vb (!e))]) := by
  intro ds ns e hns
  refine ⟨?_, ?_, ?_⟩
  · intro d _ hname
    constructor
    · rcases hname with h | h <;> simp [selectDomain, h, hns]
    · simp [listKeyPfx, hns]
  · intro d hd hname it hit
    have hsel : selectDomain ns d = true := by
      rcases hname with h | h <;> simp [selectDomain, h, hns]
    have hpfx : listKeyPfx ns d = "" := by simp [listKeyPfx, hns]
    have hfold := listCmdFold_mem ns e ds [] d hd hsel it hit
    rw [hpfx] at hfold
    exact hfold
  · intro k va vb
    have hsel_all : selectDomain ns ⟨"all", [⟨k, va⟩]⟩ = true := by
      simp [selectDomain]
    have hsel_ns : selectDomain ns ⟨ns, [⟨k, vb⟩]⟩ = true := by
      simp [selectDomain, hns]
    have hpfx_all : listKeyPfx ns ⟨"all", [⟨k, va⟩]⟩ = "" := by
      simp [listKeyPfx, hns]
    have hpfx_ns : listKeyPfx ns ⟨ns, [⟨k, vb⟩]⟩ = "" := by
      simp [listKeyPfx, hns]
    simp only [listCmd, List.foldl_cons, List.foldl_nil, hsel_all, hsel_ns, if_true,
      listDomainItems, hpfx_all, hpfx_ns, str_empty_append, dictInsert, dictGet]
    simp [List.filter]

/-- Witness for `list_all_namespace_overlap`: one item named `k` in each of
the `all` and `ns` domains collides into a single result entry. -/
theorem list_all_namespace_overlap_witness :
    (dictGet "k"
      (listCmd [⟨"all", [⟨"k", [("000", "va")]⟩]⟩, ⟨"ns", [⟨"k", [("000", "vb")]⟩]⟩]
        "ns" false)).isSome = true ∧
    listCmd [⟨"all", [⟨"k", [("000", "va")]⟩]⟩, ⟨"ns", [⟨"k", [("000", "vb")]⟩]⟩]
      "ns" false = [("k", get_value [("000", "vb")] true)] :=
  ⟨(list_all_namespace_overlap
      [⟨"all", [⟨"k", [("000", "va")]⟩]⟩, ⟨"ns", [⟨"k", [("000", "vb")]⟩]⟩]
      "ns" false (by decide)).2.1 ⟨"ns", [⟨"k", [("000", "vb")]⟩]⟩
      (List.mem_cons_of_mem _ (List.mem_cons_self _ _)) (Or.inr rfl)
      ⟨"k", [("000", "vb")]⟩ (List.mem_cons_self _ _),
   (list_all_namespace_overlap
      [⟨"all", [⟨"k", [("000", "va")]⟩]⟩, ⟨"ns", [⟨"k", [("000", "vb")]⟩]⟩]
      "ns" false (by decide)).2.2 "k" [("000", "va")] [("000", "vb")]⟩
